import Mathlib

/-!
Verification of the Sokoban RL environment-adaptation layer (`utils.py`).

The Python source is shallowly embedded: tile grids become rectangular
lists of natural-number codes, numpy indexing (including negative-index
wraparound and out-of-range failure) becomes an `Option`-valued lookup,
and enum constructors that can raise `ValueError` become `Option`-valued
conversions.  Real-valued torch computations are embedded over `ℝ`,
exact discrete computations over `ℚ`/`ℕ`.
-/

namespace SokobanRL

/-- `TileType` enum from the source: codes 0..5. -/
inductive TileType where
  | WALL
  | FLOOR
  | TARGET
  | BOX_ON_TARGET
  | BOX
  | PLAYER
  deriving DecidableEq, Repr

/-- `TileType(v)`: converts a raw grid value to a tile, `none` when the
value is outside the enum (Python raises `ValueError`). -/
def TileType.ofCode : Nat → Option TileType
  | 0 => some .WALL
  | 1 => some .FLOOR
  | 2 => some .TARGET
  | 3 => some .BOX_ON_TARGET
  | 4 => some .BOX
  | 5 => some .PLAYER
  | _ => none

/-- `MoveType` enum from the source, with its numeric values
1,2,3,4,9,10,11,12. -/
inductive MoveType where
  | PUSH_UP
  | PUSH_DOWN
  | PUSH_LEFT
  | PUSH_RIGHT
  | PULL_UP
  | PULL_DOWN
  | PULL_LEFT
  | PULL_RIGHT
  deriving DecidableEq, Repr

/-- The numeric value of each `MoveType` member. -/
def MoveType.val : MoveType → Nat
  | .PUSH_UP => 1
  | .PUSH_DOWN => 2
  | .PUSH_LEFT => 3
  | .PUSH_RIGHT => 4
  | .PULL_UP => 9
  | .PULL_DOWN => 10
  | .PULL_LEFT => 11
  | .PULL_RIGHT => 12

/-- `MoveType(v)`: converts a numeric action value to a move, `none`
when the value is not a member (Python raises `ValueError`). -/
def MoveType.ofVal : Nat → Option MoveType
  | 1 => some .PUSH_UP
  | 2 => some .PUSH_DOWN
  | 3 => some .PUSH_LEFT
  | 4 => some .PUSH_RIGHT
  | 9 => some .PULL_UP
  | 10 => some .PULL_DOWN
  | 11 => some .PULL_LEFT
  | 12 => some .PULL_RIGHT
  | _ => none

/-- `PULL_MOVES` list from the source. -/
def PULL_MOVES : List MoveType :=
  [.PULL_UP, .PULL_DOWN, .PULL_LEFT, .PULL_RIGHT]

/-- `BOX_TILES` list from the source. -/
def BOX_TILES : List TileType := [.BOX, .BOX_ON_TARGET]

/-- A room-state grid: a rectangular 2D numpy array of raw tile codes,
embedded as a list of rows. -/
abbrev Room := List (List Nat)

/-- Numpy single-axis indexing with a (possibly negative) integer index:
a negative index `i` with `-n ≤ i` wraps to `n + i`; an index outside
`[-n, n)` is out of range (`none`, Python raises `IndexError`). -/
def npIndex (n : Nat) (i : Int) : Option Nat :=
  if 0 ≤ i ∧ i < (n : Int) then some i.toNat
  else if -(n : Int) ≤ i ∧ i < 0 then some ((n : Int) + i).toNat
  else none

/-- `room[i, j]` for a 2D numpy array: numpy indexing on the row axis,
then on the column axis of the selected row. -/
def roomGet (room : Room) (i j : Int) : Option Nat := do
  let ri ← npIndex room.length i
  let row ← room.get? ri
  let ci ← npIndex row.length j
  row.get? ci

/-- The unit displacement `(dy, dx)` of a move, as assigned by the chain
of conditionals in `get_tiles`. -/
def displacement : MoveType → Int × Int
  | .PUSH_UP => (-1, 0)
  | .PULL_UP => (-1, 0)
  | .PUSH_DOWN => (1, 0)
  | .PULL_DOWN => (1, 0)
  | .PUSH_LEFT => (0, -1)
  | .PULL_LEFT => (0, -1)
  | .PUSH_RIGHT => (0, 1)
  | .PULL_RIGHT => (0, 1)

/-- `get_tiles(room, player_pos, move)`: returns the tiles after and
before the direction of movement, in that order.  `none` models an
`IndexError` from numpy or a `ValueError` from `TileType(...)`;
`tile_after` is computed first, as in the source. -/
def get_tiles (room : Room) (player_pos : Int × Int) (move : MoveType) :
    Option (TileType × TileType) := do
  let (dy, dx) := displacement move
  let rawAfter ← roomGet room (player_pos.1 + dy) (player_pos.2 + dx)
  let tile_after ← TileType.ofCode rawAfter
  let rawBefore ← roomGet room (player_pos.1 - dy) (player_pos.2 - dx)
  let tile_before ← TileType.ofCode rawBefore
  pure (tile_after, tile_before)

/-- `is_valid_command(room, player_pos, move)`: invalid moves are
(1) walking into a wall, (2) pulling when there is no box to pull. -/
def is_valid_command (room : Room) (player_pos : Int × Int) (move : MoveType) :
    Option Bool := do
  let (tile_after, tile_before) ← get_tiles room player_pos move
  let is_valid := true
  let is_valid := if tile_after = TileType.WALL then false else is_valid
  let is_valid :=
    if move ∈ PULL_MOVES ∧ tile_before ∉ BOX_TILES then false else is_valid
  pure is_valid

/-- `ObsType` enum from the source. -/
inductive ObsType where
  | REGULAR
  | ROOM_STATE_VECTOR
  | ROOM_STATE_MATRIX
  | BOX2D
  deriving DecidableEq, Repr

/-- `ActionType` enum from the source (the misspelling `DISCRETIZIED`
is the source's). -/
inductive ActionType where
  | REGULAR
  | PUSH_ONLY
  | PUSH_PULL
  | GAUSSIAN
  | DISCRETIZIED
  deriving DecidableEq, Repr

/-- The action-encoding step of `EnvWrapper.step` for the integer-action
modes: REGULAR passes through, PUSH_ONLY maps 0-3 to 1-4, PUSH_PULL maps
0-7 to [1,2,3,4,9,10,11,12].  The tensor modes (GAUSSIAN, DISCRETIZIED)
only convert the container, leaving the numeric value unchanged. -/
def encode_action : ActionType → Nat → Nat
  | .REGULAR, action => action
  | .PUSH_ONLY, action => action + 1
  | .PUSH_PULL, action =>
      let action := action + 1
      if 5 ≤ action then action + 4 else action
  | .GAUSSIAN, action => action
  | .DISCRETIZIED, action => action

/-- `math.atan2(y, x)`: the angle of the point `(x, y)`, in `(-π, π]`. -/
noncomputable def atan2 (y x : ℝ) : ℝ :=
  if 0 < x then Real.arctan (y / x)
  else if x = 0 then
    (if 0 < y then Real.pi / 2 else if y < 0 then -(Real.pi / 2) else 0)
  else if 0 ≤ y then Real.arctan (y / x) + Real.pi
  else Real.arctan (y / x) - Real.pi

/-- The cone-trick condition of `EnvWrapper.step`: with
`alpha = math.atan2(y_pos, abs(x_pos))`, the penalty fires when
`alpha < π/4` and `y_pos > 1/3`. -/
def coneTriggers (x_pos y_pos : ℝ) : Prop :=
  atan2 y_pos |x_pos| < Real.pi / 4 ∧ y_pos > 1 / 3

open Classical in
/-- The cone-trick reward-shaping block of `EnvWrapper.step`
(`if self.cone_trick: ...`): reads the first two components of the
processed observation and, when the cone condition fires, subtracts 300
from the reward and sets done. -/
noncomputable def cone_trick_shape (x_pos y_pos reward : ℝ) (done : Bool) :
    ℝ × Bool :=
  if coneTriggers x_pos y_pos then (reward - 300, true) else (reward, done)

/-- The move-trick reward-shaping block of `EnvWrapper.step`
(`if self.move_trick: ...`): converts the encoded action back to a
`MoveType`, consults `is_valid_command` with the environment's current
room state and player position, and on an invalid move subtracts 300
from the reward and sets done. -/
def move_trick_shape (room : Room) (player_pos : Int × Int) (action : Nat)
    (reward : ℚ) (done : Bool) : Option (ℚ × Bool) := do
  let move ← MoveType.ofVal action
  let is_valid ← is_valid_command room player_pos move
  pure (if is_valid then (reward, done) else (reward - 300, true))

/-- An observation value as returned to the caller: either the raw
native observation, a flattened room-state vector, or the room-state
matrix. -/
inductive Obs where
  | raw (v : List ℚ)
  | vec (v : List Nat)
  | mat (m : List (List Nat))
  deriving DecidableEq, Repr

/-- `EnvWrapper.process_obs`: REGULAR and BOX2D pass the raw observation
through; ROOM_STATE_VECTOR returns the wrapped environment's current
`room_state` flattened (row-major); ROOM_STATE_MATRIX returns
`room_state` as-is. -/
def process_obs (obs_type : ObsType) (room_state : Room) (obs : Obs) : Obs :=
  match obs_type with
  | .REGULAR => obs
  | .BOX2D => obs
  | .ROOM_STATE_VECTOR => .vec room_state.flatten
  | .ROOM_STATE_MATRIX => .mat room_state

/-- `EnvWrapper.reset`: resets the wrapped environment (whose fresh raw
observation and room state are the arguments here) and projects the
observation through `process_obs`. -/
def EnvWrapper.reset (obs_type : ObsType) (room_state : Room) (raw_obs : Obs) :
    Obs :=
  process_obs obs_type room_state raw_obs

/-- `torch.sigmoid`. -/
noncomputable def sigmoid (x : ℝ) : ℝ := 1 / (1 + Real.exp (-x))

/-- `reparametrize(mu, std)`: `mu + eps * std` with `eps` a standard
Normal sample of the same shape as `std`; the sample is an explicit
argument here.  (The source's `expand`/`squeeze` only add and remove a
leading singleton dimension.) -/
def reparametrize (mu std eps : List ℝ) : List ℝ :=
  List.zipWith3 (fun m s e => m + e * s) mu std eps

/-- `torch.distributions.Normal(mu, sigma).entropy()` for one
coordinate: `1/2 + 1/2 * log (2π) + log sigma`. -/
noncomputable def torchNormalEntropy (sigma : ℝ) : ℝ :=
  1 / 2 + 1 / 2 * Real.log (2 * Real.pi) + Real.log sigma

/-- The GAUSSIAN branch of `EnvWrapper.process_action`: given the
detached distribution parameters `dist = (detached_mu, detached_sigma)`,
the attached parameters `policy_dist = (attached_mu, attached_sigma)`,
and the standard-Normal draw `eps`, returns
`(action, log_prob, entropy)`. -/
noncomputable def process_action_gaussian
    (detached_mu detached_sigma attached_mu attached_sigma eps : List ℝ) :
    List ℝ × List ℝ × ℝ :=
  let action := reparametrize attached_mu attached_sigma eps
  let log_prob :=
    List.zipWith3 (fun a m s => Real.log (sigmoid (|a - m| / s)))
      action detached_mu detached_sigma
  let entropy := (detached_sigma.map torchNormalEntropy).sum
  (action, log_prob, entropy)

/-- Modelled from the spec: the closed-form entropy of a Normal
distribution with scale `sigma`, `log (sigma * sqrt (2 π e))`, summed
over dimensions. -/
noncomputable def specNormalEntropy (sigmas : List ℝ) : ℝ :=
  (sigmas.map fun s => Real.log (s * Real.sqrt (2 * Real.pi * Real.exp 1))).sum

/-- The element count of `torch.arange(start, stop, step)`:
`⌈(stop - start) / step⌉` (in exact arithmetic). -/
def arangeCount (start stop step : ℚ) : ℕ := (⌈(stop - start) / step⌉).toNat

/-- `torch.arange(start, stop, step)` in exact arithmetic: the values
`start + k * step` for `k < ⌈(stop - start) / step⌉`. -/
def torchArange (start stop step : ℚ) : List ℚ :=
  (List.range (arangeCount start stop step)).map
    fun k : ℕ => start + (k : ℚ) * step

/-- `self.discrete_array` as built by `EnvWrapper.__init__` for
DISCRETIZIED mode: `torch.arange(low, high, (high - low) / num_discrete)`. -/
def discrete_array (low high : ℚ) (num_discrete : ℕ) : List ℚ :=
  torchArange low high ((high - low) / num_discrete)

/-- `self.split_discrete_array` as built by `EnvWrapper.__init__`:
`cat(arange(low, low/2, (-low/2)/(n//2)), arange(high/2, high, (high/2)/(n//2)))`
with `n = num_discrete` and `//` the floor division. -/
def split_discrete_array (low high : ℚ) (num_discrete : ℕ) : List ℚ :=
  let a := torchArange low (low / 2) ((-low / 2) / ((num_discrete / 2 : ℕ) : ℚ))
  let b := torchArange (high / 2) high ((high / 2) / ((num_discrete / 2 : ℕ) : ℚ))
  a ++ b

/-- The result of `EnvWrapper.off_policy`: `q_vals.max()` yields a
scalar, `q_vals.max(dim=1)` yields one value per row. -/
inductive QVal where
  | scalar (q : ℚ)
  | perRow (qs : List ℚ)
  deriving DecidableEq, Repr

/-- `EnvWrapper.off_policy(q_vals)`: REGULAR takes the maximum over the
whole tensor, DISCRETIZIED the maximum along dim 1 (per row), any other
action type raises `NotImplementedError`.  (`torch.max` on an empty
tensor also raises.) -/
def off_policy (action_type : ActionType) (q_vals : List (List ℚ)) :
    Except String QVal :=
  match action_type with
  | .REGULAR =>
      match q_vals.flatten.max? with
      | some q_val => .ok (.scalar q_val)
      | none => .error "max(): Expected reduction over non-empty tensor"
  | .DISCRETIZIED =>
      match q_vals.mapM List.max? with
      | some q_val => .ok (.perRow q_val)
      | none => .error "max(): Expected reduction over non-empty tensor"
  | _ => .error "NotImplementedError"

/-- `AsyncEnvGen` state as seen by `get_reset_env`: the pool's
environment list, the queue contents (front dequeued first), and the
worker-process liveness. -/
structure AsyncEnvGen (Env ObsT : Type) where
  envs : List Env
  q : List (ObsT × Env)
  alive : Bool

/-- `AsyncEnvGen.get_reset_env`: when the worker is alive, block on the
queue and return its next item (`none` here means the call blocks with
no item ever arriving, or `envs` is empty on the fallback path); when
the worker is not alive, synchronously reset `envs[0]` and return its
fresh observation together with `envs[0]`. -/
def get_reset_env {Env ObsT : Type} (reset : Env → ObsT)
    (g : AsyncEnvGen Env ObsT) :
    Option ((ObsT × Env) × AsyncEnvGen Env ObsT) :=
  if g.alive then
    match g.q with
    | item :: rest => some (item, { g with q := rest })
    | [] => none
  else
    match g.envs with
    | e :: _ => some ((reset e, e), g)
    | [] => none

/-! ## Helper lemmas -/

lemma npIndex_nonneg {n : Nat} {i : Int} (h0 : 0 ≤ i) (h1 : i < (n : Int)) :
    npIndex n i = some i.toNat := by
  unfold npIndex
  rw [if_pos ⟨h0, h1⟩]

lemma npIndex_neg {n : Nat} {i : Int} (h0 : -(n : Int) ≤ i) (h1 : i < 0) :
    npIndex n i = some ((n : Int) + i).toNat := by
  unfold npIndex
  rw [if_neg (by omega), if_pos ⟨h0, h1⟩]

lemma npIndex_none_of_ge {n : Nat} {i : Int} (h : (n : Int) ≤ i) :
    npIndex n i = none := by
  unfold npIndex
  rw [if_neg (by omega), if_neg (by omega)]

/-- A negative row index `-1` wraps around to the last row. -/
lemma roomGet_wrap_row (room : Room) (j : Int) (h : 1 ≤ room.length) :
    roomGet room (-1) j = roomGet room ((room.length : Int) - 1) j := by
  have h1 : npIndex room.length (-1) = some (room.length - 1) := by
    rw [npIndex_neg (by omega) (by omega)]
    congr 1
    omega
  have h2 : npIndex room.length ((room.length : Int) - 1) =
      some (room.length - 1) := by
    rw [npIndex_nonneg (by omega) (by omega)]
    congr 1
    omega
  simp [roomGet, h1, h2]

/-- `roomGet` unfolded into its chain of `Option.bind`s. -/
lemma roomGet_eq_bind (room : Room) (i j : Int) :
    roomGet room i j = (npIndex room.length i).bind fun ri =>
      (room.get? ri).bind fun row => (npIndex row.length j).bind fun ci =>
        row.get? ci := rfl

/-- A negative column index `-1` wraps around to the last column of the
selected row. -/
lemma roomGet_wrap_col (room : Room) (i : Int) (ri : Nat) (row : List Nat)
    (hri : npIndex room.length i = some ri) (hrow : room.get? ri = some row)
    (h : 1 ≤ row.length) :
    roomGet room i (-1) = row.get? (row.length - 1) := by
  have h1 : npIndex row.length (-1) = some (row.length - 1) := by
    rw [npIndex_neg (by omega) (by omega)]
    congr 1
    omega
  rw [roomGet_eq_bind, hri, Option.some_bind, hrow, Option.some_bind, h1,
    Option.some_bind]

/-- For nonnegative indices, `roomGet` is the plain nested lookup of
exactly the addressed cell: no wraparound happens. -/
lemma roomGet_nonneg (room : Room) (i j : Int) (hi : 0 ≤ i) (hj : 0 ≤ j) :
    roomGet room i j =
      (room.get? i.toNat).bind fun row => row.get? j.toNat := by
  by_cases h1 : i < (room.length : Int)
  · rw [roomGet_eq_bind, npIndex_nonneg hi h1, Option.some_bind]
    rcases hrow : room.get? i.toNat with _ | row
    · rw [Option.none_bind, Option.none_bind]
    · rw [Option.some_bind, Option.some_bind]
      by_cases h2 : j < (row.length : Int)
      · rw [npIndex_nonneg hj h2, Option.some_bind]
      · rw [npIndex_none_of_ge (by omega), Option.none_bind,
          (List.get?_eq_none).mpr (by omega : row.length ≤ j.toNat)]
  · rw [roomGet_eq_bind, npIndex_none_of_ge (by omega), Option.none_bind,
      (List.get?_eq_none).mpr (by omega : room.length ≤ i.toNat),
      Option.none_bind]

/-! ## Theorems -/

/-- C10: `get_tiles` indexes the grid with no bounds check.  A row or
column index `-1` (a player on the top row or leftmost column moving
toward that edge) wraps around to the opposite edge of the grid, so a
top-row up move reads its tile-after from the bottom row and
`is_valid_command` returns a verdict rather than failing; a bottom-row
down move or a rightmost-column right move indexes past the end of the
array and fails; and for nonnegative indices `roomGet` reads exactly the
addressed cell, so the validator is edge-correct exactly for positions
whose two cells along the move axis lie inside the grid. -/
theorem C10_get_tiles_bounds :
    (∀ (room : Room) (j : Int), 1 ≤ room.length →
      roomGet room (-1) j = roomGet room ((room.length : Int) - 1) j) ∧
    (∀ (room : Room) (i : Int) (ri : Nat) (row : List Nat),
      npIndex room.length i = some ri → room.get? ri = some row →
      1 ≤ row.length →
      roomGet room i (-1) = row.get? (row.length - 1)) ∧
    (∀ (room : Room) (j : Int) (a b : Nat) (ta tb : TileType),
      roomGet room ((room.length : Int) - 1) j = some a →
      TileType.ofCode a = some ta →
      roomGet room 1 j = some b → TileType.ofCode b = some tb →
      1 ≤ room.length →
      get_tiles room (0, j) .PUSH_UP = some (ta, tb) ∧
      is_valid_command room (0, j) .PUSH_UP ≠ none) ∧
    (∀ (room : Room) (j : Int),
      get_tiles room ((room.length : Int) - 1, j) .PUSH_DOWN = none ∧
      is_valid_command room ((room.length : Int) - 1, j) .PUSH_DOWN = none) ∧
    (∀ (room : Room) (i : Int) (ri : Nat) (row : List Nat),
      npIndex room.length i = some ri → room.get? ri = some row →
      get_tiles room (i, (row.length : Int) - 1) .PUSH_RIGHT = none) ∧
    (∀ (room : Room) (i j : Int), 0 ≤ i → 0 ≤ j →
      roomGet room i j =
        (room.get? i.toNat).bind fun row => row.get? j.toNat) := by
  refine ⟨roomGet_wrap_row, roomGet_wrap_col, ?_, ?_, ?_, roomGet_nonneg⟩
  · intro room j a b ta tb ha hta hb htb hlen
    have hwrap := roomGet_wrap_row room j hlen
    have hafter : roomGet room (-1) j = some a := hwrap.trans ha
    have hg : get_tiles room (0, j) .PUSH_UP = some (ta, tb) := by
      simp only [get_tiles, displacement]
      norm_num [hafter, hb, hta, htb]
    refine ⟨hg, ?_⟩
    simp [is_valid_command, hg]
  · intro room j
    have hnone : npIndex room.length (room.length : Int) = none :=
      npIndex_none_of_ge (by omega)
    have hget : roomGet room ((room.length : Int) - 1 + 1) (j + 0) = none := by
      rw [show ((room.length : Int) - 1 + 1) = (room.length : Int) by omega,
        roomGet_eq_bind, hnone, Option.none_bind]
    have hg : get_tiles room ((room.length : Int) - 1, j) .PUSH_DOWN =
        none := by
      simp only [get_tiles, displacement]
      rw [hget]
      rfl
    exact ⟨hg, by simp [is_valid_command, hg]⟩
  · intro room i ri row hri hrow
    have hnone : npIndex row.length (row.length : Int) = none :=
      npIndex_none_of_ge (by omega)
    have hget : roomGet room (i + 0) ((row.length : Int) - 1 + 1) = none := by
      rw [show ((row.length : Int) - 1 + 1) = (row.length : Int) by omega,
        add_zero, roomGet_eq_bind, hri, Option.some_bind, hrow,
        Option.some_bind, hnone, Option.none_bind]
    simp only [get_tiles, displacement]
    rw [hget]
    rfl

/-- C10 witness: in the concrete 2x2 room `[[1, 4], [5, 0]]`, the
negative row index from a top-row up move wraps to the bottom row
(reading PLAYER tiles), and a bottom-row down move fails. -/
theorem C10_witness :
    roomGet [[1, 4], [5, 0]] (-1) 0 =
      roomGet [[1, 4], [5, 0]] ((([[1, 4], [5, 0]] : Room).length : Int) - 1)
        0 ∧
    get_tiles [[1, 4], [5, 0]] (0, 0) .PUSH_UP =
      some (.PLAYER, .PLAYER) ∧
    get_tiles [[1, 4], [5, 0]]
      ((([[1, 4], [5, 0]] : Room).length : Int) - 1, 0) .PUSH_DOWN = none :=
  ⟨C10_get_tiles_bounds.1 [[1, 4], [5, 0]] 0 (by decide),
   (C10_get_tiles_bounds.2.2.1 [[1, 4], [5, 0]] 0 5 5 .PLAYER .PLAYER
      (by decide) (by decide) (by decide) (by decide) (by decide)).1,
   (C10_get_tiles_bounds.2.2.2.1 [[1, 4], [5, 0]] 0).1⟩

/-- C4: when the move trick is enabled, `step` consults the validator
with the room state, player position, and the decoded move; on an
invalid move it subtracts 300 from the reward and forces done, and on a
valid move the underlying reward and done pass through unchanged. -/
theorem C4_move_trick (room : Room) (pos : Int × Int) (a : Nat)
    (r : ℚ) (d : Bool) (move : MoveType)
    (hmove : MoveType.ofVal a = some move) :
    (is_valid_command room pos move = some false →
      move_trick_shape room pos a r d = some (r - 300, true)) ∧
    (is_valid_command room pos move = some true →
      move_trick_shape room pos a r d = some (r, d)) := by
  constructor <;> intro h <;> simp [move_trick_shape, hmove, h]

/-- C4 witness: pulling right (action value 12) with no box behind the
player is penalized and terminal; the same pull with a box behind passes
the underlying reward and done through. -/
theorem C4_witness :
    move_trick_shape [[0, 0, 0], [1, 5, 1], [1, 1, 1]] (1, 1) 12 5 false =
      some (5 - 300, true) ∧
    move_trick_shape [[0, 0, 0], [4, 5, 1], [1, 1, 1]] (1, 1) 12 5 false =
      some (5, false) :=
  ⟨(C4_move_trick [[0, 0, 0], [1, 5, 1], [1, 1, 1]] (1, 1) 12 5 false
      .PULL_RIGHT (by decide)).1 (by decide),
   (C4_move_trick [[0, 0, 0], [4, 5, 1], [1, 1, 1]] (1, 1) 12 5 false
      .PULL_RIGHT (by decide)).2 (by decide)⟩

/-- C8: `get_reset_env` returns the next queued (observation,
environment) pair when the worker is alive; when the worker is not
alive, it synchronously resets the fallback environment `envs[0]` and
returns its fresh observation together with `envs[0]`. -/
theorem C8_get_reset_env (Env ObsT : Type) (reset : Env → ObsT)
    (g : AsyncEnvGen Env ObsT) :
    (g.alive = true →
      ∀ (item : ObsT × Env) (rest : List (ObsT × Env)), g.q = item :: rest →
        get_reset_env reset g = some (item, { g with q := rest })) ∧
    (g.alive = false →
      ∀ (e : Env) (es : List Env), g.envs = e :: es →
        get_reset_env reset g = some ((reset e, e), g)) := by
  constructor
  · intro ha item rest hq
    simp [get_reset_env, ha, hq]
  · intro ha e es he
    simp [get_reset_env, ha, he]

/-- C8 witness: with a dead worker the pool of one environment resets
and returns `envs[0]`; with a live worker the queued pair is returned. -/
theorem C8_witness :
    get_reset_env (fun e => e + 1)
      (⟨[7], [], false⟩ : AsyncEnvGen Nat Nat) =
      some ((8, 7), ⟨[7], [], false⟩) ∧
    get_reset_env (fun e => e + 1)
      (⟨[7], [(0, 9)], true⟩ : AsyncEnvGen Nat Nat) =
      some ((0, 9), ⟨[7], [], true⟩) :=
  ⟨(C8_get_reset_env Nat Nat (fun e => e + 1) ⟨[7], [], false⟩).2 rfl 7 []
      rfl,
   (C8_get_reset_env Nat Nat (fun e => e + 1) ⟨[7], [(0, 9)], true⟩).1 rfl
      (0, 9) [] rfl⟩

/-- C1: for every grid snapshot, player position, and move on which the
tile lookup succeeds, `is_valid_command` returns `false` exactly when the
tile one cell ahead in the move's direction is WALL, or when the move is
a pull move and the tile one cell behind the player is neither BOX nor
BOX_ON_TARGET; in every other case it returns `true`.  (The function is a
pure Lean function of its arguments, with no side effects.) -/
theorem C1_is_valid_command_iff (room : Room) (pos : Int × Int)
    (move : MoveType) (ta tb : TileType)
    (h : get_tiles room pos move = some (ta, tb)) :
    (is_valid_command room pos move = some false ↔
      ta = TileType.WALL ∨ (move ∈ PULL_MOVES ∧ tb ∉ BOX_TILES)) ∧
    (is_valid_command room pos move = some true ↔
      ¬(ta = TileType.WALL ∨ (move ∈ PULL_MOVES ∧ tb ∉ BOX_TILES))) := by
  have hunfold : is_valid_command room pos move =
      some (if move ∈ PULL_MOVES ∧ tb ∉ BOX_TILES then false
            else if ta = TileType.WALL then false else true) := by
    simp [is_valid_command, h]
  rw [hunfold]
  by_cases h1 : ta = TileType.WALL <;>
    by_cases h2 : move ∈ PULL_MOVES ∧ tb ∉ BOX_TILES <;>
      simp [h1, h2]

/-- C1 witness: in a concrete room, pulling right with a box behind the
player and floor ahead is a valid command. -/
theorem C1_witness :
    is_valid_command [[0, 0, 0], [4, 5, 1], [1, 1, 1]] (1, 1)
      MoveType.PULL_RIGHT = some true :=
  ((C1_is_valid_command_iff [[0, 0, 0], [4, 5, 1], [1, 1, 1]] (1, 1)
      MoveType.PULL_RIGHT TileType.FLOOR TileType.BOX (by decide)).2).mpr
    (by decide)

/-- C2: `EnvWrapper.step` encodes a REGULAR action unchanged, a
PUSH_ONLY policy index `i` as `i + 1`, and a PUSH_PULL index `i` as
`i + 1` when `i + 1 < 5` and as `i + 1 + 4` otherwise, so the eight
PUSH_PULL inputs map exactly onto [1, 2, 3, 4, 9, 10, 11, 12]. -/
theorem C2_encode_action :
    (∀ a : Nat, encode_action .REGULAR a = a) ∧
    (∀ i : Nat, encode_action .PUSH_ONLY i = i + 1) ∧
    (∀ i : Nat, encode_action .PUSH_PULL i =
        if i + 1 < 5 then i + 1 else i + 1 + 4) ∧
    (List.range 8).map (encode_action .PUSH_PULL) =
      [1, 2, 3, 4, 9, 10, 11, 12] := by
  refine ⟨fun a => rfl, fun i => rfl, fun i => ?_, by decide⟩
  simp only [encode_action]
  by_cases h : 5 ≤ i + 1
  · rw [if_pos h, if_neg (by omega)]
  · rw [if_neg h, if_pos (by omega)]

/-- C9: under ROOM_STATE_VECTOR and ROOM_STATE_MATRIX, `process_obs`
ignores its observation argument entirely and returns the wrapped
environment's current `room_state` (flattened row-major, or as-is); the
observation returned by `reset` is likewise determined solely by the
room state. -/
theorem C9_process_obs_ignores_input (room : Room) (o o2 : Obs) :
    process_obs .ROOM_STATE_VECTOR room o = Obs.vec room.flatten ∧
    process_obs .ROOM_STATE_MATRIX room o = Obs.mat room ∧
    process_obs .ROOM_STATE_VECTOR room o =
      process_obs .ROOM_STATE_VECTOR room o2 ∧
    process_obs .ROOM_STATE_MATRIX room o =
      process_obs .ROOM_STATE_MATRIX room o2 ∧
    EnvWrapper.reset .ROOM_STATE_VECTOR room o = Obs.vec room.flatten ∧
    EnvWrapper.reset .ROOM_STATE_MATRIX room o = Obs.mat room :=
  ⟨rfl, rfl, rfl, rfl, rfl, rfl⟩

/-- `List.max?` on rationals returns the maximum: a member that bounds
every member. -/
lemma rat_max?_eq_some_iff {l : List ℚ} {m : ℚ} :
    l.max? = some m ↔ m ∈ l ∧ ∀ b ∈ l, b ≤ m := by
  haveI anti : Std.Antisymm ((· : ℚ) ≤ ·) := ⟨fun h h2 => le_antisymm h h2⟩
  exact List.max?_eq_some_iff (fun a => le_refl a) (fun a b => max_choice a b)
    (fun a b c => max_le_iff)

/-- `mapM List.max?` succeeding means each output entry is the maximum
of the corresponding row. -/
lemma mapM_max?_forall₂ :
    ∀ {q : List (List ℚ)} {ms : List ℚ}, q.mapM List.max? = some ms →
      List.Forall₂ (fun row m => m ∈ row ∧ ∀ x ∈ row, x ≤ m) q ms := by
  intro q
  induction q with
  | nil =>
    intro ms h
    simp only [List.mapM_nil, Option.pure_def, Option.some.injEq] at h
    rw [← h]
    exact List.Forall₂.nil
  | cons row rest ih =>
    intro ms h
    rw [List.mapM_cons] at h
    rcases hr : row.max? with _ | m
    · rw [hr] at h
      simp at h
    · rw [hr] at h
      rcases ht : rest.mapM List.max? with _ | tl
      · rw [ht] at h
        simp at h
      · rw [ht] at h
        simp only [Option.bind_eq_bind, Option.some_bind, Option.pure_def,
          Option.some.injEq] at h
        rw [← h]
        exact List.Forall₂.cons (rat_max?_eq_some_iff.mp hr) (ih ht)

/-- C7: `off_policy` returns the maximum value estimate over all actions
in REGULAR mode, the per-row maximum in DISCRETIZIED mode, and for every
other action type fails with `NotImplementedError` (it is a pure
function, modifying no state). -/
theorem C7_off_policy :
    (∀ (q_vals : List (List ℚ)) (m : ℚ),
      off_policy .REGULAR q_vals = .ok (.scalar m) →
        m ∈ q_vals.flatten ∧ ∀ x ∈ q_vals.flatten, x ≤ m) ∧
    (∀ (q_vals : List (List ℚ)) (ms : List ℚ),
      off_policy .DISCRETIZIED q_vals = .ok (.perRow ms) →
        List.Forall₂ (fun row m => m ∈ row ∧ ∀ x ∈ row, x ≤ m) q_vals ms) ∧
    (∀ (t : ActionType) (q_vals : List (List ℚ)),
      t ≠ .REGULAR → t ≠ .DISCRETIZIED →
        off_policy t q_vals = .error "NotImplementedError") := by
  refine ⟨?_, ?_, ?_⟩
  · intro q_vals m h
    rcases hm : q_vals.flatten.max? with _ | v
    · rw [off_policy, hm] at h
      exact absurd h (by simp)
    · rw [off_policy, hm] at h
      simp only [Except.ok.injEq, QVal.scalar.injEq] at h
      rw [← h]
      exact rat_max?_eq_some_iff.mp hm
  · intro q_vals ms h
    rcases hm : q_vals.mapM List.max? with _ | l
    · rw [off_policy, hm] at h
      exact absurd h (by simp)
    · rw [off_policy, hm] at h
      simp only [Except.ok.injEq, QVal.perRow.injEq] at h
      rw [← h]
      exact mapM_max?_forall₂ hm
  · intro t q_vals h1 h2
    cases t <;> simp_all [off_policy]

/-- C7 witness: the REGULAR maximum of `[[1, 3], [2]]` is a member of
the flattened values, and GAUSSIAN mode fails loudly. -/
theorem C7_witness :
    (3 : ℚ) ∈ ([[1, 3], [2]] : List (List ℚ)).flatten ∧
    off_policy .GAUSSIAN [[1, 3], [2]] = .error "NotImplementedError" :=
  ⟨(C7_off_policy.1 [[1, 3], [2]] 3 (by rfl)).1,
   C7_off_policy.2.2 .GAUSSIAN [[1, 3], [2]] (by simp) (by simp)⟩

/-- `torch.arange` has exactly `n` elements when the span is exactly
`n` steps. -/
lemma arangeCount_exact (start stop step : ℚ) (n : ℕ) (hstep : step ≠ 0)
    (h : stop - start = n * step) : arangeCount start stop step = n := by
  unfold arangeCount
  rw [h, mul_div_assoc, div_self hstep, mul_one, Int.ceil_natCast,
    Int.toNat_natCast]

lemma torchArange_length (start stop step : ℚ) (n : ℕ) (hstep : step ≠ 0)
    (h : stop - start = n * step) :
    (torchArange start stop step).length = n := by
  unfold torchArange
  rw [List.length_map, List.length_range,
    arangeCount_exact start stop step n hstep h]

lemma torchArange_head (start stop step : ℚ)
    (h : 0 < arangeCount start stop step) :
    (torchArange start stop step).head? = some start := by
  unfold torchArange
  rcases hk : arangeCount start stop step with _ | m
  · omega
  · rw [List.range_succ_eq_map]
    simp

lemma torchArange_pairwise (start stop step : ℚ) (hstep : 0 < step) :
    (torchArange start stop step).Pairwise (· < ·) := by
  unfold torchArange
  refine (List.pairwise_lt_range _).map _ ?_
  intro a b hab
  have hq : (a : ℚ) < (b : ℚ) := by exact_mod_cast hab
  have := mul_lt_mul_of_pos_right hq hstep
  linarith

lemma torchArange_lt_stop (start stop step : ℚ) (n : ℕ) (hstep : 0 < step)
    (h : stop - start = n * step) :
    ∀ q ∈ torchArange start stop step, q < stop := by
  intro q hq
  unfold torchArange at hq
  rw [List.mem_map] at hq
  obtain ⟨k, hk, rfl⟩ := hq
  rw [List.mem_range,
    arangeCount_exact start stop step n (ne_of_gt hstep) h] at hk
  have hq2 : (k : ℚ) < n := by exact_mod_cast hk
  nlinarith [mul_lt_mul_of_pos_right hq2 hstep]

/-- C6 (amended): for a DISCRETIZIED-mode wrapper with `0 < num_discrete`
and `low < high`, the discretization table has exactly `num_discrete`
entries, begins at the low bound, is strictly increasing, and stays
below the high bound; the split table (for bounds straddling 0 and
`2 ≤ num_discrete`) has `2 * (num_discrete / 2)` entries — equal to
`num_discrete` only when `num_discrete` is even. -/
theorem C6_discretization_tables (low high : ℚ) (n : ℕ) (hn : 0 < n)
    (hlh : low < high) :
    (discrete_array low high n).length = n ∧
    (discrete_array low high n).head? = some low ∧
    (discrete_array low high n).Pairwise (· < ·) ∧
    (∀ q ∈ discrete_array low high n, q < high) ∧
    (2 ≤ n → low < 0 → 0 < high →
      (split_discrete_array low high n).length = 2 * (n / 2)) := by
  have hnq : (0 : ℚ) < n := by exact_mod_cast hn
  have hstep : 0 < (high - low) / n := div_pos (by linarith) hnq
  have hmul : high - low = n * ((high - low) / n) := by
    field_simp
  refine ⟨torchArange_length _ _ _ n (ne_of_gt hstep) hmul, ?_,
    torchArange_pairwise _ _ _ hstep,
    torchArange_lt_stop _ _ _ n hstep hmul, ?_⟩
  · apply torchArange_head
    rw [arangeCount_exact _ _ _ n (ne_of_gt hstep) hmul]
    exact hn
  · intro hn2 hlow hhigh
    have hm : 0 < n / 2 := Nat.div_pos hn2 (by norm_num)
    have hmq : (0 : ℚ) < ((n / 2 : ℕ) : ℚ) := by exact_mod_cast hm
    have hm0 : ((n / 2 : ℕ) : ℚ) ≠ 0 := ne_of_gt hmq
    have hstepa : 0 < (-low / 2) / ((n / 2 : ℕ) : ℚ) :=
      div_pos (by linarith) hmq
    have hstepb : 0 < (high / 2) / ((n / 2 : ℕ) : ℚ) :=
      div_pos (by linarith) hmq
    have hmula : low / 2 - low =
        ((n / 2 : ℕ) : ℚ) * ((-low / 2) / ((n / 2 : ℕ) : ℚ)) := by
      field_simp
      ring
    have hmulb : high - high / 2 =
        ((n / 2 : ℕ) : ℚ) * ((high / 2) / ((n / 2 : ℕ) : ℚ)) := by
      field_simp
      ring
    unfold split_discrete_array
    rw [List.length_append,
      torchArange_length _ _ _ (n / 2) (ne_of_gt hstepa) hmula,
      torchArange_length _ _ _ (n / 2) (ne_of_gt hstepb) hmulb]
    omega

/-- C6 counterexample: with the LunarLander bounds `low = -1`,
`high = 1` and an odd `num_discrete = 3`, the split table has 2 entries,
not `num_discrete = 3`. -/
theorem C6_counterexample : (split_discrete_array (-1) 1 3).length ≠ 3 := by
  norm_num [split_discrete_array, torchArange, arangeCount]

/-- C6 witness: with `low = -1`, `high = 1`, `num_discrete = 4` the main
table has 4 strictly increasing entries starting at `-1`, and the split
table has `2 * (4 / 2) = 4` entries. -/
theorem C6_witness :
    (discrete_array (-1) 1 4).length = 4 ∧
    (discrete_array (-1) 1 4).head? = some (-1) ∧
    (discrete_array (-1) 1 4).Pairwise (· < ·) ∧
    (split_discrete_array (-1) 1 4).length = 2 * (4 / 2) :=
  ⟨(C6_discretization_tables (-1) 1 4 (by norm_num) (by norm_num)).1,
   (C6_discretization_tables (-1) 1 4 (by norm_num) (by norm_num)).2.1,
   (C6_discretization_tables (-1) 1 4 (by norm_num) (by norm_num)).2.2.1,
   (C6_discretization_tables (-1) 1 4 (by norm_num) (by norm_num)).2.2.2.2
     (by norm_num) (by norm_num) (by norm_num)⟩

/-- For a nonzero x-coordinate, the cone condition reduces to
`y / |x| < 1` (the point lies below the 45° line) together with
`1/3 < y`. -/
lemma coneTriggers_iff (x y : ℝ) (hx : x ≠ 0) :
    coneTriggers x y ↔ y / |x| < 1 ∧ 1 / 3 < y := by
  have h1 : 0 < |x| := abs_pos.mpr hx
  unfold coneTriggers atan2
  rw [if_pos h1]
  constructor
  · rintro ⟨ha, hy⟩
    refine ⟨?_, hy⟩
    rw [← Real.arctan_one] at ha
    exact Real.arctan_strictMono.lt_iff_lt.mp ha
  · rintro ⟨ha, hy⟩
    refine ⟨?_, hy⟩
    rw [← Real.arctan_one]
    exact Real.arctan_strictMono ha

/-- C3 (amended): when the cone trick is enabled, `step` subtracts 300
from the reward and forces done exactly when
`atan2(y, |x|) < π/4 ∧ y > 1/3` holds of the projected observation's
first two components.  The observation `x = 0.1, y = 0.4` does not
trigger the penalty (angle ≈ 76°), and neither does `x = 0.05, y = 0.4`
(angle ≈ 83°, still above the 45° threshold); an observation such as
`x = 0.6, y = 0.4` (angle ≈ 34°) does trigger it and sets done. -/
theorem C3_cone_trick :
    (∀ (x y r : ℝ) (d : Bool), coneTriggers x y →
      cone_trick_shape x y r d = (r - 300, true)) ∧
    (∀ (x y r : ℝ) (d : Bool), ¬coneTriggers x y →
      cone_trick_shape x y r d = (r, d)) ∧
    ¬coneTriggers 0.1 0.4 ∧
    ¬coneTriggers 0.05 0.4 ∧
    coneTriggers 0.6 0.4 := by
  refine ⟨fun x y r d h => ?_, fun x y r d h => ?_, ?_, ?_, ?_⟩
  · unfold cone_trick_shape
    rw [if_pos h]
  · unfold cone_trick_shape
    rw [if_neg h]
  · rw [coneTriggers_iff 0.1 0.4 (by norm_num)]
    rintro ⟨h1, -⟩
    rw [abs_of_pos (by norm_num)] at h1
    norm_num at h1
  · rw [coneTriggers_iff 0.05 0.4 (by norm_num)]
    rintro ⟨h1, -⟩
    rw [abs_of_pos (by norm_num)] at h1
    norm_num at h1
  · rw [coneTriggers_iff 0.6 0.4 (by norm_num), abs_of_pos (by norm_num)]
    norm_num

/-- C3 counterexample: the claim asserts that the observation
`x = 0.05, y = 0.4` triggers the penalty, but its polar angle
`atan2(0.4, 0.05) = arctan 8 ≈ 83°` is not below 45°, so the cone block
leaves the reward and done flag unchanged. -/
theorem C3_counterexample :
    cone_trick_shape 0.05 0.4 0 false = (0, false) := by
  have h : ¬coneTriggers 0.05 0.4 := by
    rw [coneTriggers_iff 0.05 0.4 (by norm_num)]
    rintro ⟨h1, -⟩
    rw [abs_of_pos (by norm_num)] at h1
    norm_num at h1
  unfold cone_trick_shape
  rw [if_neg h]

/-- C3 witness: the triggering observation `x = 0.6, y = 0.4` is
penalized and terminal, while `x = 0.1, y = 0.4` passes reward and done
through unchanged. -/
theorem C3_witness :
    cone_trick_shape 0.6 0.4 0 false = (0 - 300, true) ∧
    cone_trick_shape 0.1 0.4 7 false = (7, false) :=
  ⟨C3_cone_trick.1 0.6 0.4 0 false C3_cone_trick.2.2.2.2,
   C3_cone_trick.2.1 0.1 0.4 7 false C3_cone_trick.2.2.1⟩

/-- The elementwise reparameterization `mu + eps * std` written as a
`zipWith3` agrees with the spec's vector formula. -/
lemma zipWith3_reparam (mu std eps : List ℝ) :
    List.zipWith3 (fun m s e => m + e * s) mu std eps =
      List.zipWith (· + ·) mu (List.zipWith (· * ·) eps std) := by
  induction mu generalizing std eps with
  | nil => simp [List.zipWith3]
  | cons m mus ih =>
    cases std with
    | nil => simp [List.zipWith3]
    | cons s stds =>
      cases eps with
      | nil => simp [List.zipWith3]
      | cons e epss => simp [List.zipWith3, ih]

/-- The torch Normal entropy `1/2 + 1/2 log (2π) + log σ` is the
closed-form Normal entropy `log (σ √(2πe))`. -/
lemma torchNormalEntropy_eq (s : ℝ) (hs : 0 < s) :
    torchNormalEntropy s =
      Real.log (s * Real.sqrt (2 * Real.pi * Real.exp 1)) := by
  have h2pi : (0 : ℝ) < 2 * Real.pi := by positivity
  have harg : (0 : ℝ) < 2 * Real.pi * Real.exp 1 := by positivity
  rw [Real.log_mul (ne_of_gt hs) (ne_of_gt (Real.sqrt_pos.mpr harg)),
    Real.log_sqrt (le_of_lt harg),
    Real.log_mul (ne_of_gt h2pi) (ne_of_gt (Real.exp_pos 1)),
    Real.log_exp]
  unfold torchNormalEntropy
  ring

lemma entropy_sum_eq (sigmas : List ℝ) (hs : ∀ s ∈ sigmas, 0 < s) :
    (sigmas.map torchNormalEntropy).sum = specNormalEntropy sigmas := by
  unfold specNormalEntropy
  congr 1
  exact List.map_congr_left fun s hsm => torchNormalEntropy_eq s (hs s hsm)

/-- C5: in GAUSSIAN mode `process_action` returns the reparameterized
action `mu + eps * std` built from the attached parameters, a
log-probability `log (sigmoid (|action - mu| / sigma))` built
elementwise from the detached parameters (the surrogate, not the Normal
log-density), and the closed-form Normal entropy `log (σ √(2πe))` of the
detached distribution summed over dimensions.  (Detachment from the
gradient graph has no observable counterpart in this embedding.) -/
theorem C5_process_action_gaussian
    (detached_mu detached_sigma attached_mu attached_sigma eps : List ℝ)
    (hs : ∀ s ∈ detached_sigma, 0 < s) :
    process_action_gaussian detached_mu detached_sigma attached_mu
        attached_sigma eps =
      (List.zipWith (· + ·) attached_mu
          (List.zipWith (· * ·) eps attached_sigma),
        List.zipWith3 (fun a m s => Real.log (sigmoid (|a - m| / s)))
          (List.zipWith (· + ·) attached_mu
            (List.zipWith (· * ·) eps attached_sigma))
          detached_mu detached_sigma,
        specNormalEntropy detached_sigma) := by
  unfold process_action_gaussian reparametrize
  rw [zipWith3_reparam, entropy_sum_eq detached_sigma hs]

/-- C5 witness: for unit sigma, zero mu, and the draw `eps = 2`, the
action is `2`, the log-probability is `log (sigmoid 2)`, and the entropy
is the closed-form Normal entropy at `σ = 1`. -/
theorem C5_witness :
    process_action_gaussian [0] [1] [0] [1] [2] =
      ([2], [Real.log (sigmoid 2)], specNormalEntropy [1]) := by
  have h := C5_process_action_gaussian [0] [1] [0] [1] [2] (by
    intro s hsm
    rw [List.mem_singleton] at hsm
    rw [hsm]
    norm_num)
  rw [h]
  norm_num [List.zipWith3]

end SokobanRL
